import Mathlib

/-!
Shallow embedding of `src/utils/common.py` (Plasma Engine shared utilities)
and verification of its specification claims.

The embedded pieces are:
* `retry_async` — decorator retrying an async function with exponential backoff;
* `cache_result` — in-memory TTL cache decorator;
* `get_env_var` — environment variable reader with required/cast semantics;
* `deep_merge` — recursive dictionary merge;
* `chunk_list` — list chunking.
-/

namespace Plasma

/-! ## Retry-with-backoff wrapper (`retry_async`, common.py lines 517-545)

The wrapped async function is modelled as a map from the attempt index
(0-based) to the outcome of that invocation: `f : Nat → Except E A`.
Time is modelled by recording, in order, each delay value passed to
`asyncio.sleep`; delays are rationals standing for Python floats.

The Python loop is

    last_exception = None
    for attempt in range(max_attempts):
        try:
            return await func(*args, **kwargs)
        except Exception as e:
            last_exception = e
            if attempt == max_attempts - 1:
                raise last_exception
            await asyncio.sleep(delay * (backoff ** attempt))
    raise last_exception

The final `raise last_exception` is reachable only when `max_attempts = 0`
(the loop body never falls through otherwise); there it raises `None`,
which the model renders as `Except.error none`.  A failure of attempt `i`
is rendered `Except.error (some e)`.
-/

/-- One run of the retry loop starting at attempt index `attempt`.
Returns (outcome, number of invocations of `f`, list of sleep durations
requested, in order). -/
def retryAux {E A : Type} (f : Nat → Except E A) (delay backoff : ℚ)
    (maxAttempts attempt : Nat) : Except (Option E) A × Nat × List ℚ :=
  if _h : attempt < maxAttempts then
    match f attempt with
    | Except.ok a => (Except.ok a, 1, [])
    | Except.error e =>
      if attempt = maxAttempts - 1 then
        (Except.error (some e), 1, [])
      else
        let r := retryAux f delay backoff maxAttempts (attempt + 1)
        (r.1, r.2.1 + 1, delay * backoff ^ attempt :: r.2.2)
  else
    (Except.error none, 0, [])
termination_by maxAttempts - attempt

/-- The retry-wrapped operation: run the attempt loop from attempt 0,
as `retry_async(max_attempts, delay, backoff)` does. -/
def retry_async {E A : Type} (f : Nat → Except E A) (delay backoff : ℚ)
    (maxAttempts : Nat) : Except (Option E) A × Nat × List ℚ :=
  retryAux f delay backoff maxAttempts 0

lemma retryAux_ok {E A : Type} {f : Nat → Except E A} {d b : ℚ}
    {N attempt : Nat} {a : A} (h : attempt < N) (ha : f attempt = Except.ok a) :
    retryAux f d b N attempt = (Except.ok a, 1, []) := by
  rw [retryAux, dif_pos h, ha]

lemma retryAux_err_last {E A : Type} {f : Nat → Except E A} {d b : ℚ}
    {N attempt : Nat} {e : E} (h : attempt < N) (ha : f attempt = Except.error e)
    (hl : attempt = N - 1) :
    retryAux f d b N attempt = (Except.error (some e), 1, []) := by
  rw [retryAux, dif_pos h, ha]
  exact if_pos hl

lemma retryAux_err_cont {E A : Type} {f : Nat → Except E A} {d b : ℚ}
    {N attempt : Nat} {e : E} (h : attempt < N) (ha : f attempt = Except.error e)
    (hl : ¬ attempt = N - 1) :
    retryAux f d b N attempt =
      ((retryAux f d b N (attempt + 1)).1,
       (retryAux f d b N (attempt + 1)).2.1 + 1,
       d * b ^ attempt :: (retryAux f d b N (attempt + 1)).2.2) := by
  rw [retryAux, dif_pos h, ha]
  exact if_neg hl

lemma retryAux_allFail {E A : Type} (f : Nat → Except E A) (d b : ℚ) (N : Nat)
    (hf : ∀ i, ∃ e, f i = Except.error e) :
    ∀ j attempt, attempt + j + 1 = N →
      (retryAux f d b N attempt).2.1 = j + 1 ∧
      ∀ e, f (N - 1) = Except.error e →
        (retryAux f d b N attempt).1 = Except.error (some e) := by
  intro j
  induction j with
  | zero =>
    intro attempt hN
    obtain ⟨e0, he0⟩ := hf attempt
    have hlt : attempt < N := by omega
    have hlast : attempt = N - 1 := by omega
    rw [retryAux_err_last hlt he0 hlast]
    refine ⟨rfl, ?_⟩
    intro e he
    rw [← hlast, he0] at he
    cases he
    rfl
  | succ j ih =>
    intro attempt hN
    obtain ⟨e0, he0⟩ := hf attempt
    have hlt : attempt < N := by omega
    have hnotlast : ¬ attempt = N - 1 := by omega
    have hrec := ih (attempt + 1) (by omega)
    rw [retryAux_err_cont hlt he0 hnotlast]
    exact ⟨by simp [hrec.1], fun e he => hrec.2 e he⟩

lemma retryAux_succeedsAt {E A : Type} (f : Nat → Except E A) (d b : ℚ)
    (N k : Nat) (v : A) (hkN : k ≤ N)
    (hok : f (k - 1) = Except.ok v) :
    ∀ j attempt, attempt + j + 1 = k →
      (∀ i, attempt ≤ i → i < k - 1 → ∃ e, f i = Except.error e) →
      (retryAux f d b N attempt).2.1 = j + 1 ∧
      (retryAux f d b N attempt).1 = Except.ok v := by
  intro j
  induction j with
  | zero =>
    intro attempt hk _hfail
    have hlt : attempt < N := by omega
    have hlast : attempt = k - 1 := by omega
    rw [retryAux_ok hlt (hlast ▸ hok)]
    exact ⟨rfl, rfl⟩
  | succ j ih =>
    intro attempt hk hfail
    have hlt : attempt < N := by omega
    obtain ⟨e0, he0⟩ := hfail attempt le_rfl (by omega)
    have hnotlast : ¬ attempt = N - 1 := by omega
    have hrec := ih (attempt + 1) (by omega)
      (fun i hi hik => hfail i (by omega) hik)
    rw [retryAux_err_cont hlt he0 hnotlast]
    exact ⟨by simp [hrec.1], hrec.2⟩

/-- **C1.** For every `max_attempts = N ≥ 1`, if the wrapped operation fails
on every invocation then the retry wrapper invokes it exactly `N` times, and
the failure finally raised is exactly the exception captured from the last
attempt (attempt `N - 1`), unwrapped. -/
theorem retry_allFail_invokes_N_and_raises_last {E A : Type}
    (f : Nat → Except E A) (d b : ℚ) (N : Nat) (hN : 1 ≤ N)
    (hf : ∀ i, ∃ e, f i = Except.error e) :
    (retry_async f d b N).2.1 = N ∧
    ∀ e, f (N - 1) = Except.error e →
      (retry_async f d b N).1 = Except.error (some e) := by
  have h := retryAux_allFail f d b N hf (N - 1) 0 (by omega)
  refine ⟨?_, h.2⟩
  rw [retry_async, h.1]
  omega

/-- Witness for C1: three always-failing attempts with `N = 3`. -/
theorem retry_allFail_witness :
    1 ≤ 3 ∧ ((retry_async (fun i => (Except.error i : Except Nat Nat)) 1 2 3).2.1 = 3 ∧
      ∀ e, (fun i => (Except.error i : Except Nat Nat)) (3 - 1) = Except.error e →
        (retry_async (fun i => (Except.error i : Except Nat Nat)) 1 2 3).1
          = Except.error (some e)) :=
  ⟨by omega,
   retry_allFail_invokes_N_and_raises_last
     (fun i => (Except.error i : Except Nat Nat)) 1 2 3 (by omega)
     (fun i => ⟨i, rfl⟩)⟩

/-- **C2.** If the wrapped operation fails on its first `k - 1` invocations
and succeeds on the `k`-th (with `1 ≤ k ≤ N`), the retry wrapper invokes it
exactly `k` times and returns the `k`-th invocation's success value. -/
theorem retry_succeeds_at_k {E A : Type} (f : Nat → Except E A) (d b : ℚ)
    (N k : Nat) (v : A) (hk : 1 ≤ k) (hkN : k ≤ N)
    (hfail : ∀ i, i < k - 1 → ∃ e, f i = Except.error e)
    (hok : f (k - 1) = Except.ok v) :
    (retry_async f d b N).2.1 = k ∧ (retry_async f d b N).1 = Except.ok v := by
  have h := retryAux_succeedsAt f d b N k v hkN hok (k - 1) 0 (by omega)
    (fun i _ hik => hfail i hik)
  refine ⟨?_, h.2⟩
  rw [retry_async, h.1]
  omega

/-- Witness for C2: fails twice, succeeds on attempt 3 of 5. -/
theorem retry_succeeds_at_k_witness :
    (retry_async (fun i => if i < 2 then Except.error i else Except.ok 42) (1 : ℚ) 2 5).2.1 = 3 ∧
    (retry_async (fun i => if i < 2 then Except.error i else Except.ok 42) (1 : ℚ) 2 5).1
      = Except.ok 42 :=
  retry_succeeds_at_k (fun i => if i < 2 then Except.error i else Except.ok 42)
    1 2 5 3 42 (by omega) (by omega)
    (fun i hi => ⟨i, by simp [show i < 2 by omega]⟩)
    (by norm_num)

/-! ## TTL cache wrapper (`cache_result`, common.py lines 586-616)

The wrapper body is

    cache_key = f"{func.__name__}:{hash(str(args) + str(sorted(kwargs.items())))}"
    if cache_key in cache:
        result, timestamp = cache[cache_key]
        if time.time() - timestamp < ttl_seconds:
            return result
        else:
            del cache[cache_key]
    result = func(*args, **kwargs)
    cache[cache_key] = (result, time.time())
    return result

The backing dict is modelled as `String → Option (A × ℚ)` (value paired
with its storage timestamp), the clock as an explicit `now : ℚ` argument,
and the underlying operation as `f : Args → Except E A`.  One wrapper call
is a pure state transition returning (outcome, new cache, whether `func`
was invoked).  In the expired-entry path the source deletes the entry and
then (on success of `func`) stores the fresh pair under the same key; the
deletion followed by the store is written here as a single update, and the
deletion alone survives when `func` raises (the exception propagates
before the store line runs). -/

/-- One call of the `cache_result` wrapper, as a state transition on the
backing map. Returns (outcome, new cache, `true` iff `func` was invoked). -/
def cache_result_call {Args A E : Type} (ttlSeconds : ℚ) (keyOf : Args → String)
    (f : Args → Except E A) (cache : String → Option (A × ℚ)) (now : ℚ)
    (args : Args) : Except E A × (String → Option (A × ℚ)) × Bool :=
  let cacheKey := keyOf args
  match cache cacheKey with
  | some (result, timestamp) =>
    if now - timestamp < ttlSeconds then
      (Except.ok result, cache, false)
    else
      match f args with
      | Except.ok r =>
        (Except.ok r, fun key => if key = cacheKey then some (r, now) else cache key, true)
      | Except.error e =>
        (Except.error e, fun key => if key = cacheKey then none else cache key, true)
  | none =>
    match f args with
    | Except.ok r =>
      (Except.ok r, fun key => if key = cacheKey then some (r, now) else cache key, true)
    | Except.error e => (Except.error e, cache, true)

/-! ### Cache key derivation

`str(args) + str(sorted(kwargs.items()))` is string formatting over
arbitrary Python values.  The value universe is modelled by `PyVal`:
machine integers, strings, and objects carrying an identity distinct from
their `__repr__` text (`str()` of an object only sees the repr, so two
distinct objects may render identically — this is what makes the scheme
collision-prone).  Python's builtin `hash` is seed-randomized, so it is a
parameter `pyHash : String → Int` of the model. -/

/-- A Python argument value: int, str, or an object with identity and
custom repr text. -/
inductive PyVal : Type where
  | pint : Int → PyVal
  | pstr : String → PyVal
  | pobj : Nat → String → PyVal
deriving DecidableEq

/-- Python `str()` / `repr()` of a value (`\x27` is the ASCII quote used
by `repr` on strings). -/
def pyRepr : PyVal → String
  | PyVal.pint n => toString n
  | PyVal.pstr s => "\x27" ++ s ++ "\x27"
  | PyVal.pobj _ r => r

/-- Python `str()` of the positional-argument tuple. -/
def pyStrTuple : List PyVal → String
  | [] => "()"
  | [v] => "(" ++ pyRepr v ++ ",)"
  | vs => "(" ++ String.intercalate ", " (vs.map pyRepr) ++ ")"

/-- Python `str()` of one `(key, value)` item of `kwargs.items()`. -/
def pyStrPair (p : String × PyVal) : String :=
  "(\x27" ++ p.1 ++ "\x27, " ++ pyRepr p.2 ++ ")"

/-- Python `str()` of a list of `(key, value)` items. -/
def pyStrItems (l : List (String × PyVal)) : String :=
  "[" ++ String.intercalate ", " (l.map pyStrPair) ++ "]"

/-- Insertion step of sorting `kwargs.items()`; dict keys are unique, so
comparing keys alone matches Python tuple ordering. -/
def insertPair (p : String × PyVal) : List (String × PyVal) → List (String × PyVal)
  | [] => [p]
  | q :: rest => if p.1 ≤ q.1 then p :: q :: rest else q :: insertPair p rest

/-- `sorted(kwargs.items())`. -/
def sortPairs : List (String × PyVal) → List (String × PyVal)
  | [] => []
  | p :: rest => insertPair p (sortPairs rest)

/-- The derived cache key
`f"{func.__name__}:{hash(str(args) + str(sorted(kwargs.items())))}"`. -/
def cache_key (fname : String) (pyHash : String → Int) (args : List PyVal)
    (kwargs : List (String × PyVal)) : String :=
  fname ++ ":" ++ toString (pyHash (pyStrTuple args ++ pyStrItems (sortPairs kwargs)))

/-- **C3.** Starting from an empty cache, a first call stores its result;
a second call with identical arguments within the TTL window (age `< ttl`)
returns the stored result without invoking the operation, while a call
after expiry (age `≥ ttl`) invokes it again and stores a fresh
(result, timestamp) entry. -/
theorem cache_hit_within_ttl_refresh_after {Args A E : Type} (ttl : ℚ)
    (keyOf : Args → String) (f : Args → Except E A) (v : A) (t1 t2 : ℚ)
    (args : Args) (r1 r2 : Except E A) (c1 c2 : String → Option (A × ℚ))
    (i1 i2 : Bool) (hv : f args = Except.ok v)
    (h1 : cache_result_call ttl keyOf f (fun _ => none) t1 args = (r1, c1, i1))
    (h2 : cache_result_call ttl keyOf f c1 t2 args = (r2, c2, i2)) :
    i1 = true ∧ r1 = Except.ok v ∧
    (t2 - t1 < ttl → i2 = false ∧ r2 = Except.ok v) ∧
    (ttl ≤ t2 - t1 → i2 = true ∧ r2 = Except.ok v ∧
      c2 (keyOf args) = some (v, t2)) := by
  have h1e : (Except.ok v,
      (fun key => if key = keyOf args then some (v, t1) else none), true)
      = (r1, c1, i1) := by
    rw [← h1]
    simp [cache_result_call, hv]
  injection h1e with hr1 htail1
  injection htail1 with hc1 hi1
  subst hr1; subst hc1; subst hi1
  by_cases hlt : t2 - t1 < ttl
  · simp only [cache_result_call, if_pos rfl, if_true, eq_self_iff_true,
      if_pos hlt] at h2
    injection h2 with hr2 htail2
    injection htail2 with hc2 hi2
    subst hr2; subst hc2; subst hi2
    exact ⟨rfl, rfl, fun _ => ⟨rfl, rfl⟩, fun hge => absurd hlt (not_lt.mpr hge)⟩
  · simp only [cache_result_call, if_pos rfl, if_true, eq_self_iff_true,
      if_neg hlt, hv] at h2
    injection h2 with hr2 htail2
    injection htail2 with hc2 hi2
    subst hr2; subst hc2; subst hi2
    exact ⟨rfl, rfl, fun hlt2 => absurd hlt2 hlt,
      fun _ => ⟨rfl, rfl, by simp⟩⟩

/-- Witness for C3: hit within the window (`ttl = 10`, calls at 0 and 5). -/
theorem cache_hit_within_ttl_refresh_after_witness :
    true = true ∧ (Except.ok 7 : Except Unit Nat) = Except.ok 7 ∧
    ((5 : ℚ) - 0 < 10 → false = false ∧ (Except.ok 7 : Except Unit Nat) = Except.ok 7) ∧
    ((10 : ℚ) ≤ 5 - 0 → false = true ∧ (Except.ok 7 : Except Unit Nat) = Except.ok 7 ∧
      (fun key => if key = "k" then some ((7 : Nat), (0 : ℚ)) else none)
        ((fun (_ : Unit) => "k") ()) = some (7, 5)) :=
  cache_hit_within_ttl_refresh_after 10 (fun _ => "k")
    (fun _ => (Except.ok 7 : Except Unit Nat)) 7 0 5 ()
    (Except.ok 7) (Except.ok 7)
    (fun key => if key = "k" then some (7, 0) else none)
    (fun key => if key = "k" then some (7, 0) else none)
    true false rfl (by norm_num [cache_result_call])
    (by norm_num [cache_result_call])

/-- **C5.** Single-call invariant of the cache state, for an arbitrary
starting cache (hence preserved across every sequence of calls):
a stored result is only ever returned without invoking the operation when
its age is strictly below the TTL; no key other than the looked-up one is
ever touched; a live entry survives the call unchanged; an expired entry
found by the lookup is removed (deleted, or replaced by a fresh one when
the re-invoked operation succeeds). -/
theorem cache_invariant_step {Args A E : Type} (ttl : ℚ)
    (keyOf : Args → String) (f : Args → Except E A)
    (cache : String → Option (A × ℚ)) (now : ℚ) (args : Args)
    (r : Except E A) (c' : String → Option (A × ℚ)) (inv : Bool)
    (h : cache_result_call ttl keyOf f cache now args = (r, c', inv)) :
    (inv = false → ∃ v ts, cache (keyOf args) = some (v, ts) ∧
      now - ts < ttl ∧ r = Except.ok v ∧ c' = cache) ∧
    (∀ k, k ≠ keyOf args → c' k = cache k) ∧
    (∀ v ts, cache (keyOf args) = some (v, ts) → now - ts < ttl →
      c' (keyOf args) = some (v, ts)) ∧
    (∀ v ts, cache (keyOf args) = some (v, ts) → ttl ≤ now - ts →
      c' (keyOf args) = none ∨
        ∃ w, f args = Except.ok w ∧ c' (keyOf args) = some (w, now)) := by
  cases hc : cache (keyOf args) with
  | none =>
    cases hf : f args with
    | ok w =>
      simp only [cache_result_call, hc, hf] at h
      injection h with hr htail; injection htail with hc' hinv
      subst hr; subst hc'; subst hinv
      exact ⟨fun hfalse => Bool.noConfusion hfalse,
        fun k hk => if_neg hk,
        fun v ts hsome _ => Option.noConfusion hsome,
        fun v ts hsome _ => Option.noConfusion hsome⟩
    | error e =>
      simp only [cache_result_call, hc, hf] at h
      injection h with hr htail; injection htail with hc' hinv
      subst hr; subst hc'; subst hinv
      exact ⟨fun hfalse => Bool.noConfusion hfalse,
        fun k _ => rfl,
        fun v ts hsome _ => Option.noConfusion hsome,
        fun v ts hsome _ => Option.noConfusion hsome⟩
  | some p =>
    obtain ⟨v0, ts0⟩ := p
    by_cases hlt : now - ts0 < ttl
    · simp only [cache_result_call, hc, if_pos hlt] at h
      injection h with hr htail; injection htail with hc' hinv
      subst hr; subst hc'; subst hinv
      refine ⟨fun _ => ⟨v0, ts0, rfl, hlt, rfl, rfl⟩, fun k _ => rfl, ?_, ?_⟩
      · intro v ts hsome _
        exact hc.trans hsome
      · intro v ts hsome hge
        injection hsome with hvts
        injection hvts with hveq htseq
        subst htseq
        exact absurd hlt (not_lt.mpr hge)
    · cases hf : f args with
      | ok w =>
        simp only [cache_result_call, hc, if_neg hlt, hf] at h
        injection h with hr htail; injection htail with hc' hinv
        subst hr; subst hc'; subst hinv
        refine ⟨fun hfalse => Bool.noConfusion hfalse, fun k hk => if_neg hk, ?_, ?_⟩
        · intro v ts hsome hlt'
          injection hsome with hvts
          injection hvts with hveq htseq
          subst htseq
          exact absurd hlt' hlt
        · intro v ts _ _
          exact Or.inr ⟨w, rfl, if_pos rfl⟩
      | error e =>
        simp only [cache_result_call, hc, if_neg hlt, hf] at h
        injection h with hr htail; injection htail with hc' hinv
        subst hr; subst hc'; subst hinv
        refine ⟨fun hfalse => Bool.noConfusion hfalse, fun k hk => if_neg hk, ?_, ?_⟩
        · intro v ts hsome hlt'
          injection hsome with hvts
          injection hvts with hveq htseq
          subst htseq
          exact absurd hlt' hlt
        · intro v ts _ _
          exact Or.inl (if_pos rfl)

/-- Witness for C5: live entry hit at age 5 with `ttl = 10`. -/
theorem cache_invariant_step_witness :
    (false = false → ∃ v ts,
      (fun key => if key = "k" then some ((7 : Nat), (0 : ℚ)) else none)
        ((fun (_ : Unit) => "k") ()) = some (v, ts) ∧
      (5 : ℚ) - ts < 10 ∧ (Except.ok 7 : Except Unit Nat) = Except.ok v ∧
      (fun key => if key = "k" then some ((7 : Nat), (0 : ℚ)) else none)
        = (fun key => if key = "k" then some ((7 : Nat), (0 : ℚ)) else none)) ∧
    (∀ k, k ≠ (fun (_ : Unit) => "k") () →
      (fun key => if key = "k" then some ((7 : Nat), (0 : ℚ)) else none) k
        = (fun key => if key = "k" then some ((7 : Nat), (0 : ℚ)) else none) k) ∧
    (∀ v ts, (fun key => if key = "k" then some ((7 : Nat), (0 : ℚ)) else none)
        ((fun (_ : Unit) => "k") ()) = some (v, ts) → (5 : ℚ) - ts < 10 →
      (fun key => if key = "k" then some ((7 : Nat), (0 : ℚ)) else none)
        ((fun (_ : Unit) => "k") ()) = some (v, ts)) ∧
    (∀ v ts, (fun key => if key = "k" then some ((7 : Nat), (0 : ℚ)) else none)
        ((fun (_ : Unit) => "k") ()) = some (v, ts) → (10 : ℚ) ≤ 5 - ts →
      (fun key => if key = "k" then some ((7 : Nat), (0 : ℚ)) else none)
        ((fun (_ : Unit) => "k") ()) = none ∨
        ∃ w, (fun (_ : Unit) => (Except.ok 7 : Except Unit Nat)) () = Except.ok w ∧
          (fun key => if key = "k" then some ((7 : Nat), (0 : ℚ)) else none)
            ((fun (_ : Unit) => "k") ()) = some (w, 5)) :=
  cache_invariant_step 10 (fun _ => "k") (fun _ => (Except.ok 7 : Except Unit Nat))
    (fun key => if key = "k" then some (7, 0) else none) 5 ()
    (Except.ok 7) (fun key => if key = "k" then some (7, 0) else none) false
    (by norm_num [cache_result_call])

/-- **C6.** If the underlying operation raises on a call that actually
invokes it (no live entry for the key), the failure propagates unchanged,
no entry is stored for the key, and a subsequent call with the same
arguments invokes the operation again. -/
theorem cache_error_propagates_not_stored {Args A E : Type} (ttl : ℚ)
    (keyOf : Args → String) (f : Args → Except E A)
    (cache : String → Option (A × ℚ)) (now now2 : ℚ) (args : Args) (e : E)
    (r : Except E A) (c' : String → Option (A × ℚ)) (inv : Bool)
    (hf : f args = Except.error e)
    (hmiss : cache (keyOf args) = none ∨
      ∃ v ts, cache (keyOf args) = some (v, ts) ∧ ttl ≤ now - ts)
    (h : cache_result_call ttl keyOf f cache now args = (r, c', inv)) :
    r = Except.error e ∧ inv = true ∧ c' (keyOf args) = none ∧
    (cache_result_call ttl keyOf f c' now2 args).2.2 = true := by
  have hkey : c' (keyOf args) = none ∧ r = Except.error e ∧ inv = true := by
    rcases hmiss with hc | ⟨v, ts, hc, hge⟩
    · simp only [cache_result_call, hc, hf] at h
      injection h with hr htail; injection htail with hc' hinv
      subst hr; subst hc'; subst hinv
      exact ⟨hc, rfl, rfl⟩
    · simp only [cache_result_call, hc, if_neg (not_lt.mpr hge), hf] at h
      injection h with hr htail; injection htail with hc' hinv
      subst hr; subst hc'; subst hinv
      exact ⟨if_pos rfl, rfl, rfl⟩
  refine ⟨hkey.2.1, hkey.2.2, hkey.1, ?_⟩
  cases hf2 : f args with
  | ok w => simp only [cache_result_call, hkey.1, hf2]
  | error e2 => simp only [cache_result_call, hkey.1, hf2]

/-- Witness for C6: failing operation on an empty cache. -/
theorem cache_error_propagates_not_stored_witness :
    (Except.error 3 : Except Nat Nat) = Except.error 3 ∧ true = true ∧
    (fun (_ : String) => (none : Option (Nat × ℚ))) ((fun (_ : Unit) => "k") ()) = none ∧
    (cache_result_call 10 (fun (_ : Unit) => "k")
      (fun _ => (Except.error 3 : Except Nat Nat))
      (fun _ => none) 1 ()).2.2 = true :=
  cache_error_propagates_not_stored 10 (fun _ => "k")
    (fun _ => (Except.error 3 : Except Nat Nat)) (fun _ => none) 0 1 () 3
    (Except.error 3) (fun _ => none) true rfl (Or.inl rfl) rfl

/-! ### C4: the key scheme is not collision-safe

Two distinct Python objects whose `__repr__` texts coincide produce the
same `str(args)`, hence the same derived key, for every hash seed; the
second call is then answered from the entry stored for the first. -/

instance {ε α : Type} [DecidableEq ε] [DecidableEq α] :
    DecidableEq (Except ε α) := fun x y =>
  match x, y with
  | Except.ok a, Except.ok b =>
    if h : a = b then isTrue (by rw [h])
    else isFalse (fun hc => h (by injection hc))
  | Except.ok _, Except.error _ => isFalse (fun hc => Except.noConfusion hc)
  | Except.error _, Except.ok _ => isFalse (fun hc => Except.noConfusion hc)
  | Except.error e, Except.error e2 =>
    if h : e = e2 then isTrue (by rw [h])
    else isFalse (fun hc => h (by injection hc))

/-- First call's argument list: an object with identity 0 and repr "X". -/
def exampleObjA : List PyVal := [PyVal.pobj 0 "X"]

/-- Second call's argument list: a distinct object (identity 1) with the
same repr "X". -/
def exampleObjB : List PyVal := [PyVal.pobj 1 "X"]

/-- A concrete stand-in for Python's seed-randomized string hash. -/
def exampleHash : String → Int := fun s => (s.length : Int)

/-- The key derivation of the wrapper, for a function named "f" with no
keyword arguments. -/
def exampleKeyOf : List PyVal → String := fun a => cache_key "f" exampleHash a []

/-- An underlying operation distinguishing the two argument lists. -/
def exampleOp : List PyVal → Except Unit Nat :=
  fun a => if a = exampleObjA then Except.ok 1 else Except.ok 2

/-- First wrapper call (empty cache, time 0, arguments `exampleObjA`). -/
def exampleRun1 : Except Unit Nat × (String → Option (Nat × ℚ)) × Bool :=
  cache_result_call 300 exampleKeyOf exampleOp (fun _ => none) 0 exampleObjA

/-- Second wrapper call (time 1, arguments `exampleObjB`). -/
def exampleRun2 : Except Unit Nat × (String → Option (Nat × ℚ)) × Bool :=
  cache_result_call 300 exampleKeyOf exampleOp exampleRun1.2.1 1 exampleObjB

/-- **C4 (counterexample).** The two argument lists differ, yet they derive
the same cache key, and the second call is answered — without invoking the
operation — with the result stored for the first argument list (`1`, not
the `2` the operation returns on the second list). -/
theorem cache_key_not_collision_safe :
    exampleObjA ≠ exampleObjB ∧
    exampleKeyOf exampleObjA = exampleKeyOf exampleObjB ∧
    exampleOp exampleObjB = Except.ok 2 ∧
    exampleRun2.1 = Except.ok 1 ∧
    exampleRun2.2.2 = false := by
  have hkey : exampleKeyOf exampleObjA = exampleKeyOf exampleObjB := by decide
  have h1 : exampleRun1 = (Except.ok 1,
      fun key => if key = exampleKeyOf exampleObjA then some ((1 : Nat), (0 : ℚ)) else none,
      true) := by
    simp [exampleRun1, cache_result_call, exampleOp]
  refine ⟨by decide, hkey, by decide, ?_, ?_⟩
  · norm_num [exampleRun2, h1, cache_result_call, ← hkey]
  · norm_num [exampleRun2, h1, cache_result_call, ← hkey]

/-- **C4 (amended).** Calls whose derived cache keys differ never share a
cache entry: after a first call stores its result, a second call whose key
is different invokes the operation itself, returns that operation's own
value, and leaves the first call's entry untouched.  (Argument lists that
differ as values may still derive one key — see the counterexample — so
distinctness of the derived keys, not of the argument lists, is what
separates entries.) -/
theorem cache_distinct_keys_not_shared {A E : Type} (ttl : ℚ) (fname : String)
    (pyHash : String → Int)
    (f : List PyVal × List (String × PyVal) → Except E A)
    (p1 p2 : List PyVal × List (String × PyVal)) (t1 t2 : ℚ) (v1 v2 : A)
    (hne : cache_key fname pyHash p1.1 p1.2 ≠ cache_key fname pyHash p2.1 p2.2)
    (hv1 : f p1 = Except.ok v1) (hv2 : f p2 = Except.ok v2) :
    (cache_result_call ttl
      (fun p => cache_key fname pyHash p.1 p.2) f
      (cache_result_call ttl (fun p => cache_key fname pyHash p.1 p.2) f
        (fun _ => none) t1 p1).2.1 t2 p2).2.2 = true ∧
    (cache_result_call ttl
      (fun p => cache_key fname pyHash p.1 p.2) f
      (cache_result_call ttl (fun p => cache_key fname pyHash p.1 p.2) f
        (fun _ => none) t1 p1).2.1 t2 p2).1 = Except.ok v2 ∧
    (cache_result_call ttl
      (fun p => cache_key fname pyHash p.1 p.2) f
      (cache_result_call ttl (fun p => cache_key fname pyHash p.1 p.2) f
        (fun _ => none) t1 p1).2.1 t2 p2).2.1
        (cache_key fname pyHash p1.1 p1.2) =
      (cache_result_call ttl (fun p => cache_key fname pyHash p.1 p.2) f
        (fun _ => none) t1 p1).2.1 (cache_key fname pyHash p1.1 p1.2) := by
  have hne2 : cache_key fname pyHash p2.1 p2.2 ≠ cache_key fname pyHash p1.1 p1.2 :=
    Ne.symm hne
  refine ⟨?_, ?_, ?_⟩ <;>
    simp [cache_result_call, hv1, hv2, if_neg hne, if_neg hne2]

/-- Argument pair `((1,), {})` for the amended-C4 witness. -/
def examplePairA : List PyVal × List (String × PyVal) := ([PyVal.pint 1], [])

/-- Argument pair `((10,), {})` for the amended-C4 witness. -/
def examplePairB : List PyVal × List (String × PyVal) := ([PyVal.pint 10], [])

/-- Identity-like operation returning its own argument pair. -/
def exampleIdOp : List PyVal × List (String × PyVal) →
    Except Unit (List PyVal × List (String × PyVal)) := fun p => Except.ok p

/-- Key derivation over argument pairs for the amended-C4 witness. -/
def examplePairKeyOf : List PyVal × List (String × PyVal) → String :=
  fun p => cache_key "f" exampleHash p.1 p.2

/-- First call of the amended-C4 witness run. -/
def exampleDRun1 : Except Unit (List PyVal × List (String × PyVal)) ×
    (String → Option ((List PyVal × List (String × PyVal)) × ℚ)) × Bool :=
  cache_result_call 300 examplePairKeyOf exampleIdOp (fun _ => none) 0 examplePairA

/-- Second call of the amended-C4 witness run. -/
def exampleDRun2 : Except Unit (List PyVal × List (String × PyVal)) ×
    (String → Option ((List PyVal × List (String × PyVal)) × ℚ)) × Bool :=
  cache_result_call 300 examplePairKeyOf exampleIdOp exampleDRun1.2.1 1 examplePairB

/-- Witness for C4 (amended): `(1,)` and `(10,)` render to strings of
different lengths, so the length hash separates the keys. -/
theorem cache_distinct_keys_not_shared_witness :
    exampleDRun2.2.2 = true ∧
    exampleDRun2.1 = Except.ok examplePairB ∧
    exampleDRun2.2.1 (cache_key "f" exampleHash examplePairA.1 examplePairA.2) =
      exampleDRun1.2.1 (cache_key "f" exampleHash examplePairA.1 examplePairA.2) :=
  cache_distinct_keys_not_shared 300 "f" exampleHash exampleIdOp
    examplePairA examplePairB 0 1 examplePairA examplePairB
    (by decide) rfl rfl

lemma retryAux_sleeps {E A : Type} (f : Nat → Except E A) (d b : ℚ) (N : Nat) :
    ∀ fuel attempt, N - attempt = fuel →
      ∃ m, (retryAux f d b N attempt).2.2 =
        (List.range m).map (fun i => d * b ^ (attempt + i)) := by
  intro fuel
  induction fuel with
  | zero =>
    intro attempt hfuel
    have hge : ¬ attempt < N := by omega
    refine ⟨0, ?_⟩
    rw [retryAux, dif_neg hge]
    rfl
  | succ fuel ih =>
    intro attempt hfuel
    have hlt : attempt < N := by omega
    cases hf : f attempt with
    | ok a =>
      refine ⟨0, ?_⟩
      rw [retryAux_ok hlt hf]
      rfl
    | error e =>
      by_cases hlast : attempt = N - 1
      · refine ⟨0, ?_⟩
        rw [retryAux_err_last hlt hf hlast]
        rfl
      · obtain ⟨m, hm⟩ := ih (attempt + 1) (by omega)
        refine ⟨m + 1, ?_⟩
        have hstep : (retryAux f d b N attempt).2.2 =
            d * b ^ attempt :: (retryAux f d b N (attempt + 1)).2.2 := by
          rw [retryAux_err_cont hlt hf hlast]
        rw [hstep, hm, List.range_succ_eq_map, List.map_cons, List.map_map]
        refine congrArg₂ _ (by rw [Nat.add_zero]) ?_
        refine List.map_congr_left ?_
        intro i _
        show d * b ^ (attempt + 1 + i) = d * b ^ (attempt + (i + 1))
        rw [show attempt + 1 + i = attempt + (i + 1) from by omega]

/-- **C8.** For every initial delay `d` and backoff multiplier `b`, the
sleeps requested by a retry run form the schedule `d * b^0, d * b^1, …`
(the i-th recorded sleep, between failed attempt i and attempt i+1, is
exactly `d * b^i`); and for `d > 0`, `b ≥ 1` the schedule is
monotonically non-decreasing. -/
theorem retry_backoff_delays {E A : Type} (f : Nat → Except E A) (d b : ℚ)
    (N : Nat) :
    (retry_async f d b N).2.2 =
      (List.range (retry_async f d b N).2.2.length).map (fun i => d * b ^ i) ∧
    (0 < d → 1 ≤ b → List.Pairwise (· ≤ ·) (retry_async f d b N).2.2) := by
  obtain ⟨m, hm⟩ := retryAux_sleeps f d b N (N - 0) 0 rfl
  have hm0 : (retry_async f d b N).2.2 = (List.range m).map (fun i => d * b ^ i) := by
    rw [retry_async, hm]
    simp
  constructor
  · rw [hm0]
    simp
  · intro hd hb
    rw [hm0, List.pairwise_map]
    refine (List.pairwise_lt_range m).imp ?_
    intro i j hij
    exact mul_le_mul_of_nonneg_left (pow_le_pow_right₀ hb (le_of_lt hij)) (le_of_lt hd)

/-- Witness for C8: always-failing run with `d = 1`, `b = 2`, `N = 3`,
with the monotonicity premises discharged concretely. -/
theorem retry_backoff_delays_witness :
    (retry_async (fun i => (Except.error i : Except Nat Nat)) 1 2 3).2.2 =
      (List.range (retry_async (fun i => (Except.error i : Except Nat Nat)) 1 2 3).2.2.length).map
        (fun i => (1 : ℚ) * 2 ^ i) ∧
    List.Pairwise (· ≤ ·) (retry_async (fun i => (Except.error i : Except Nat Nat)) 1 2 3).2.2 :=
  ⟨(retry_backoff_delays (fun i => (Except.error i : Except Nat Nat)) 1 2 3).1,
   (retry_backoff_delays (fun i => (Except.error i : Except Nat Nat)) 1 2 3).2
     (by norm_num) (by norm_num)⟩

/-! ## Environment variable reader (`get_env_var`, common.py lines 413-449)

    value = os.getenv(key, default)
    if required and value is None:
        raise ConfigurationError(f"Required environment variable '{key}' not set")
    if value is not None and cast_type:
        if cast_type == bool:
            value = value.lower() in ('true', '1', 'yes', 'on')
        elif cast_type == list:
            value = [item.strip() for item in value.split(',') if item.strip()]
        else:
            value = safe_cast(value, cast_type, default)
    return value

The environment is `env : String → Option String` (set/unset), the
exception hierarchy is `PEError` (its two leaf kinds `ValidationError`
and `ConfigurationError` are distinct constructors), and the cast targets
are `bool`, `list`, and a representative scalar target `int` whose
`safe_cast` falls back to `default` on failure. -/

/-- The two exception kinds of interest: `ValidationError` and
`ConfigurationError`, both subclasses of `PlasmaEngineError`. -/
inductive PEError : Type where
  | validation : String → PEError
  | configuration : String → PEError
deriving DecidableEq

/-- A `cast_type` argument: `bool`, `list`, or `int`. -/
inductive CastType : Type where
  | cbool : CastType
  | clist : CastType
  | cint : CastType
deriving DecidableEq

/-- A value returned by `get_env_var` (string, cast result, or None). -/
inductive EnvValue : Type where
  | vstr : String → EnvValue
  | vbool : Bool → EnvValue
  | vlist : List String → EnvValue
  | vint : Int → EnvValue
  | vnone : EnvValue
deriving DecidableEq

/-- `get_env_var(key, default, required, cast_type)` over the modelled
environment. -/
def get_env_var (env : String → Option String) (key : String)
    (default : Option String) (required : Bool)
    (castType : Option CastType) : Except PEError EnvValue :=
  let value : Option String :=
    match env key with
    | some v => some v
    | none => default
  if required = true ∧ value = none then
    Except.error (PEError.configuration
      ("Required environment variable " ++ key ++ " not set"))
  else
    match value, castType with
    | some v, some CastType.cbool =>
      Except.ok (EnvValue.vbool (decide (v.toLower = "true" ∨ v.toLower = "1" ∨
        v.toLower = "yes" ∨ v.toLower = "on")))
    | some v, some CastType.clist =>
      Except.ok (EnvValue.vlist
        (((v.splitOn ",").map String.trim).filter (fun s => ¬ s = "")))
    | some v, some CastType.cint =>
      Except.ok (match v.toInt? with
        | some n => EnvValue.vint n
        | none =>
          match default with
          | some dv => EnvValue.vstr dv
          | none => EnvValue.vnone)
    | some v, none => Except.ok (EnvValue.vstr v)
    | none, _ => Except.ok EnvValue.vnone

/-- **C7.** `get_env_var` with `required=True` raises `ConfigurationError`
(never `ValidationError`) exactly when the resolved value is absent — the
variable is unset and no non-None default is supplied; in every other case
it returns a value. -/
theorem get_env_var_required_missing (env : String → Option String)
    (key : String) (default : Option String) (required : Bool)
    (castType : Option CastType) :
    (required = true ∧ env key = none ∧ default = none →
      get_env_var env key default required castType =
        Except.error (PEError.configuration
          ("Required environment variable " ++ key ++ " not set"))) ∧
    (∀ err, get_env_var env key default required castType = Except.error err →
      required = true ∧ env key = none ∧ default = none ∧
      err = PEError.configuration
        ("Required environment variable " ++ key ++ " not set")) ∧
    (∀ m, get_env_var env key default required castType ≠
      Except.error (PEError.validation m)) := by
  have herr : ∀ err, get_env_var env key default required castType = Except.error err →
      required = true ∧ env key = none ∧ default = none ∧
      err = PEError.configuration
        ("Required environment variable " ++ key ++ " not set") := by
    intro err herr
    cases henv : env key with
    | some v =>
      rcases castType with _ | ct
      · simp [get_env_var, henv] at herr
      · cases ct
        · simp [get_env_var, henv] at herr
        · simp [get_env_var, henv] at herr
        · cases hti : v.toInt? with
          | some n => simp [get_env_var, henv, hti] at herr
          | none =>
            cases hdef : default with
            | some dv => simp [get_env_var, henv, hti, hdef] at herr
            | none => simp [get_env_var, henv, hti, hdef] at herr
    | none =>
      cases hdef : default with
      | some dv =>
        rcases castType with _ | ct
        · simp [get_env_var, henv, hdef] at herr
        · cases ct
          · simp [get_env_var, henv, hdef] at herr
          · simp [get_env_var, henv, hdef] at herr
          · cases hti : dv.toInt? with
            | some n => simp [get_env_var, henv, hdef, hti] at herr
            | none => simp [get_env_var, henv, hdef, hti] at herr
      | none =>
        cases required with
        | false => simp [get_env_var, henv, hdef] at herr
        | true =>
          simp [get_env_var, henv, hdef] at herr
          exact ⟨rfl, rfl, rfl, herr.symm⟩
  refine ⟨?_, herr, ?_⟩
  · rintro ⟨hreq, henv, hdef⟩
    subst hreq
    simp [get_env_var, henv, hdef]
  · intro m hcontra
    have h := herr (PEError.validation m) hcontra
    cases h.2.2.2

/-- Witness for C7: unset variable, no default, `required=True`. -/
theorem get_env_var_required_missing_witness :
    (true = true ∧ (fun (_ : String) => (none : Option String)) "K" = none ∧
        (none : Option String) = none →
      get_env_var (fun _ => none) "K" none true none =
        Except.error (PEError.configuration
          ("Required environment variable " ++ "K" ++ " not set"))) ∧
    (∀ err, get_env_var (fun _ => none) "K" none true none = Except.error err →
      true = true ∧ (fun (_ : String) => (none : Option String)) "K" = none ∧
        (none : Option String) = none ∧
      err = PEError.configuration
        ("Required environment variable " ++ "K" ++ " not set")) ∧
    (∀ m, get_env_var (fun _ => none) "K" none true none ≠
      Except.error (PEError.validation m)) :=
  get_env_var_required_missing (fun _ => none) "K" none true none

/-! ## Deep dictionary merge (`deep_merge`, common.py lines 309-328)

    result = dict1.copy()
    for key, value in dict2.items():
        if key in result and isinstance(result[key], dict) and isinstance(value, dict):
            result[key] = deep_merge(result[key], value)
        else:
            result[key] = value
    return result

A Python value is an atom or a nested dict; a dict is an association list
with unique keys (`dset` writes through the existing slot, as dict item
assignment does). `deep_merge d1 d2` folds dict2's items into a copy of
dict1 exactly as the loop above does. -/

/-- A Python value for `deep_merge`: a non-dict atom or a nested dict. -/
inductive PyV : Type where
  | atom : Int → PyV
  | dct : List (String × PyV) → PyV

/-- Dict lookup (`result[key]` / `key in result`). -/
def dlookup : List (String × PyV) → String → Option PyV
  | [], _ => none
  | (k, v) :: rest, key => if k = key then some v else dlookup rest key

/-- Dict item assignment `d[key] = val` (overwrite in place or append). -/
def dset : List (String × PyV) → String → PyV → List (String × PyV)
  | [], key, val => [(key, val)]
  | (k, v) :: rest, key, val =>
    if k = key then (key, val) :: rest else (k, v) :: dset rest key val

/-- `deep_merge(dict1, dict2)`: the first argument is the accumulated
`result`, the second the remaining items of `dict2`. -/
def deep_merge : List (String × PyV) → List (String × PyV) → List (String × PyV)
  | result, [] => result
  | result, (k, v) :: rest =>
    match dlookup result k, v with
    | some (PyV.dct m1), PyV.dct m2 =>
      deep_merge (dset result k (PyV.dct (deep_merge m1 m2))) rest
    | _, _ => deep_merge (dset result k v) rest
termination_by _ d2 => sizeOf d2

lemma dlookup_dset_self (l : List (String × PyV)) (k : String) (v : PyV) :
    dlookup (dset l k v) k = some v := by
  induction l with
  | nil => simp [dset, dlookup]
  | cons p rest ih =>
    obtain ⟨k0, v0⟩ := p
    by_cases h : k0 = k
    · simp [dset, h, dlookup]
    · simp [dset, h, dlookup, ih]

lemma dlookup_dset_ne (l : List (String × PyV)) (k q : String) (v : PyV)
    (h : q ≠ k) : dlookup (dset l k v) q = dlookup l q := by
  induction l with
  | nil => simp [dset, dlookup, Ne.symm h]
  | cons p rest ih =>
    obtain ⟨k0, v0⟩ := p
    by_cases h0 : k0 = k
    · subst h0
      simp [dset, dlookup, Ne.symm h]
    · by_cases hq : k0 = q
      · subst hq
        simp [dset, h0, dlookup]
      · simp [dset, h0, dlookup, hq, ih]

lemma deep_merge_nil (result : List (String × PyV)) :
    deep_merge result [] = result := by
  rw [deep_merge]

lemma deep_merge_cons_dctdct (result : List (String × PyV)) (k : String)
    (m1 m2 : List (String × PyV)) (rest : List (String × PyV))
    (h : dlookup result k = some (PyV.dct m1)) :
    deep_merge result ((k, PyV.dct m2) :: rest) =
      deep_merge (dset result k (PyV.dct (deep_merge m1 m2))) rest := by
  rw [deep_merge.eq_def]
  split
  · rename_i heq
    cases heq
  · rename_i result2 k2 v2 rest2 heq
    injection heq with h1 h2
    injection h1 with hk hv
    subst hk
    subst h2
    subst hv
    split
    · simp_all
    · rename_i hno
      exact (hno m1 m2 h rfl).elim

lemma deep_merge_cons_other (result : List (String × PyV)) (k : String) (v : PyV)
    (rest : List (String × PyV))
    (h : ∀ m1 m2, dlookup result k = some (PyV.dct m1) → v = PyV.dct m2 → False) :
    deep_merge result ((k, v) :: rest) = deep_merge (dset result k v) rest := by
  rw [deep_merge.eq_def]
  split
  · rename_i heq
    cases heq
  · rename_i result2 k2 v2 rest2 heq
    injection heq with h1 h2
    injection h1 with hk hv
    subst hk
    subst h2
    subst hv
    split
    · exfalso
      exact h _ _ (by assumption) rfl
    · rfl

lemma no_dd_of_none {d1 : List (String × PyV)} {k : String} (v : PyV)
    (hd : dlookup d1 k = none) :
    ∀ m1 m2, dlookup d1 k = some (PyV.dct m1) → v = PyV.dct m2 → False :=
  fun _ _ hl _ => by rw [hd] at hl; exact Option.noConfusion hl

lemma no_dd_of_atom_lookup {d1 : List (String × PyV)} {k : String} (a1 : Int)
    (v : PyV) (hd : dlookup d1 k = some (PyV.atom a1)) :
    ∀ m1 m2, dlookup d1 k = some (PyV.dct m1) → v = PyV.dct m2 → False :=
  fun _ _ hl _ => by
    rw [hd] at hl
    injection hl with h2
    exact PyV.noConfusion h2

lemma no_dd_of_atom_val (d1 : List (String × PyV)) (k : String) (a : Int) :
    ∀ m1 m2, dlookup d1 k = some (PyV.dct m1) → PyV.atom a = PyV.dct m2 → False :=
  fun _ _ _ hv => PyV.noConfusion hv

lemma deep_merge_lookup_of_not_key (q : String) :
    ∀ d2 d1, q ∉ d2.map Prod.fst →
      dlookup (deep_merge d1 d2) q = dlookup d1 q := by
  intro d2
  induction d2 with
  | nil =>
    intro d1 _
    rw [deep_merge_nil]
  | cons p rest ih =>
    obtain ⟨k, v⟩ := p
    intro d1 h
    have hq : q ≠ k := fun hc => h (by simp [hc])
    have hrest : q ∉ rest.map Prod.fst := fun hc => h (by simp [hc])
    have step : ∀ X, dlookup (deep_merge (dset d1 k X) rest) q = dlookup d1 q := by
      intro X
      rw [ih _ hrest, dlookup_dset_ne _ _ _ _ hq]
    rcases hd : dlookup d1 k with _ | v1
    · rw [deep_merge_cons_other d1 k v rest (no_dd_of_none v hd)]
      exact step v
    · rcases v1 with a1 | m1
      · rw [deep_merge_cons_other d1 k v rest (no_dd_of_atom_lookup a1 v hd)]
        exact step v
      · rcases v with a | m2
        · rw [deep_merge_cons_other d1 k (PyV.atom a) rest (no_dd_of_atom_val d1 k a)]
          exact step (PyV.atom a)
        · rw [deep_merge_cons_dctdct d1 k m1 m2 rest hd]
          exact step (PyV.dct (deep_merge m1 m2))

lemma deep_merge_dlookup (q : String) :
    ∀ d2 d1, (d2.map Prod.fst).Nodup →
      dlookup (deep_merge d1 d2) q =
        match dlookup d1 q, dlookup d2 q with
        | some (PyV.dct m1), some (PyV.dct m2) => some (PyV.dct (deep_merge m1 m2))
        | _, some v2 => some v2
        | some v1, none => some v1
        | none, none => none := by
  intro d2
  induction d2 with
  | nil =>
    intro d1 _
    rw [deep_merge_nil]
    rcases h1 : dlookup d1 q with _ | (a1 | m1) <;> simp [dlookup, h1]
  | cons p rest ih =>
    obtain ⟨k, v⟩ := p
    intro d1 hnd
    rw [List.map_cons, List.nodup_cons] at hnd
    by_cases hqk : q = k
    · subst hqk
      have step : ∀ X, dlookup (deep_merge (dset d1 q X) rest) q = some X := by
        intro X
        rw [deep_merge_lookup_of_not_key _ _ _ hnd.1, dlookup_dset_self]
      rcases hd : dlookup d1 q with _ | v1
      · rcases v with a | m2
        · rw [deep_merge_cons_other d1 q (PyV.atom a) rest (no_dd_of_none _ hd),
            step]
          simp [dlookup, hd]
        · rw [deep_merge_cons_other d1 q (PyV.dct m2) rest (no_dd_of_none _ hd),
            step]
          simp [dlookup, hd]
      · rcases v1 with a1 | m1
        · rcases v with a | m2
          · rw [deep_merge_cons_other d1 q (PyV.atom a) rest
              (no_dd_of_atom_lookup a1 _ hd), step]
            simp [dlookup, hd]
          · rw [deep_merge_cons_other d1 q (PyV.dct m2) rest
              (no_dd_of_atom_lookup a1 _ hd), step]
            simp [dlookup, hd]
        · rcases v with a | m2
          · rw [deep_merge_cons_other d1 q (PyV.atom a) rest
              (no_dd_of_atom_val d1 q a), step]
            simp [dlookup, hd]
          · rw [deep_merge_cons_dctdct d1 q m1 m2 rest hd, step]
            simp [dlookup, hd]
    · have hkq : ¬ (k = q) := fun hc => hqk hc.symm
      have step : ∀ X, dlookup (deep_merge (dset d1 k X) rest) q =
          match dlookup d1 q, dlookup rest q with
          | some (PyV.dct m1), some (PyV.dct m2) => some (PyV.dct (deep_merge m1 m2))
          | _, some v2 => some v2
          | some v1, none => some v1
          | none, none => none := by
        intro X
        rw [ih _ hnd.2, dlookup_dset_ne _ _ _ _ hqk]
      rcases hd : dlookup d1 k with _ | v1
      · rw [deep_merge_cons_other d1 k v rest (no_dd_of_none v hd), step]
        simp [dlookup, hkq]
      · rcases v1 with a1 | m1
        · rw [deep_merge_cons_other d1 k v rest (no_dd_of_atom_lookup a1 v hd),
            step]
          simp [dlookup, hkq]
        · rcases v with a | m2
          · rw [deep_merge_cons_other d1 k (PyV.atom a) rest
              (no_dd_of_atom_val d1 k a), step]
            simp [dlookup, hkq]
          · rw [deep_merge_cons_dctdct d1 k m1 m2 rest hd, step]
            simp [dlookup, hkq]

/-- **C9.** `deep_merge(d1, d2)` contains every key of either input; on a
key present in both, two nested dicts merge recursively and any other
conflict is won by `d2`; a key present in only one input keeps that
input's value.  (Dicts are modelled as association lists whose keys are
unique, as Python guarantees.) -/
theorem deep_merge_spec (d1 d2 : List (String × PyV))
    (hnd : (d2.map Prod.fst).Nodup) (q : String) :
    ((dlookup (deep_merge d1 d2) q).isSome ↔
      ((dlookup d1 q).isSome ∨ (dlookup d2 q).isSome)) ∧
    (∀ m1 m2, dlookup d1 q = some (PyV.dct m1) →
      dlookup d2 q = some (PyV.dct m2) →
      dlookup (deep_merge d1 d2) q = some (PyV.dct (deep_merge m1 m2))) ∧
    (∀ v1 v2, dlookup d1 q = some v1 → dlookup d2 q = some v2 →
      ((∀ m1, v1 ≠ PyV.dct m1) ∨ (∀ m2, v2 ≠ PyV.dct m2)) →
      dlookup (deep_merge d1 d2) q = some v2) ∧
    (∀ v1, dlookup d1 q = some v1 → dlookup d2 q = none →
      dlookup (deep_merge d1 d2) q = some v1) ∧
    (dlookup d1 q = none → ∀ v2, dlookup d2 q = some v2 →
      dlookup (deep_merge d1 d2) q = some v2) := by
  have hc := deep_merge_dlookup q d2 d1 hnd
  refine ⟨?_, ?_, ?_, ?_, ?_⟩
  · rw [hc]
    rcases h1 : dlookup d1 q with _ | (a1 | m1) <;>
      rcases h2 : dlookup d2 q with _ | (a2 | m2) <;> simp
  · intro m1 m2 h1 h2
    rw [hc, h1, h2]
  · intro v1 v2 h1 h2 hnot
    rw [hc, h1, h2]
    rcases v1 with a1 | m1
    · rfl
    · rcases v2 with a2 | m2
      · rfl
      · rcases hnot with hn1 | hn2
        · exact absurd rfl (hn1 m1)
        · exact absurd rfl (hn2 m2)
  · intro v1 h1 h2
    rw [hc, h1, h2]
    rcases v1 with a1 | m1 <;> rfl
  · intro h1 v2 h2
    rw [hc, h1, h2]

/-- `dict1` of the C9 witness: `{"a": 1, "b": {"x": 1}}`. -/
def exMergeD1 : List (String × PyV) :=
  [("a", PyV.atom 1), ("b", PyV.dct [("x", PyV.atom 1)])]

/-- `dict2` of the C9 witness: `{"b": {"y": 2}, "c": 3}`. -/
def exMergeD2 : List (String × PyV) :=
  [("b", PyV.dct [("y", PyV.atom 2)]), ("c", PyV.atom 3)]

/-- Witness for C9: the two dicts above, probed at key "b". -/
theorem deep_merge_spec_witness :
    ((dlookup (deep_merge exMergeD1 exMergeD2) "b").isSome ↔
      ((dlookup exMergeD1 "b").isSome ∨ (dlookup exMergeD2 "b").isSome)) ∧
    (∀ m1 m2, dlookup exMergeD1 "b" = some (PyV.dct m1) →
      dlookup exMergeD2 "b" = some (PyV.dct m2) →
      dlookup (deep_merge exMergeD1 exMergeD2) "b" =
        some (PyV.dct (deep_merge m1 m2))) ∧
    (∀ v1 v2, dlookup exMergeD1 "b" = some v1 →
      dlookup exMergeD2 "b" = some v2 →
      ((∀ m1, v1 ≠ PyV.dct m1) ∨ (∀ m2, v2 ≠ PyV.dct m2)) →
      dlookup (deep_merge exMergeD1 exMergeD2) "b" = some v2) ∧
    (∀ v1, dlookup exMergeD1 "b" = some v1 → dlookup exMergeD2 "b" = none →
      dlookup (deep_merge exMergeD1 exMergeD2) "b" = some v1) ∧
    (dlookup exMergeD1 "b" = none → ∀ v2, dlookup exMergeD2 "b" = some v2 →
      dlookup (deep_merge exMergeD1 exMergeD2) "b" = some v2) :=
  deep_merge_spec exMergeD1 exMergeD2 (by decide) "b"

/-! ## List chunking (`chunk_list`, common.py lines 356-367)

    return [lst[i:i + chunk_size] for i in range(0, len(lst), chunk_size)]

`pyRange start stop step` is Python's `range(start, stop, step)` for a
positive step (an empty range when the step is 0, where Python raises),
and the slice `lst[i:i+n]` is `(lst.drop i).take n`. -/

/-- `range(start, stop, step)` for `step > 0` (empty if `step = 0`). -/
def pyRange (start stop step : Nat) : List Nat :=
  if _h : 0 < step ∧ start < stop then
    start :: pyRange (start + step) stop step
  else []
termination_by stop - start

/-- `chunk_list(lst, chunk_size)`. -/
def chunk_list {α : Type} (lst : List α) (chunkSize : Nat) : List (List α) :=
  (pyRange 0 lst.length chunkSize).map (fun i => (lst.drop i).take chunkSize)

lemma pyRange_pos {start stop step : Nat} (h : 0 < step ∧ start < stop) :
    pyRange start stop step = start :: pyRange (start + step) stop step := by
  rw [pyRange, dif_pos h]

lemma pyRange_neg {start stop step : Nat} (h : ¬ (0 < step ∧ start < stop)) :
    pyRange start stop step = [] := by
  rw [pyRange, dif_neg h]

lemma pyRange_shift (c s : Nat) :
    ∀ fuel a b, b - a ≤ fuel →
      pyRange (a + c) (b + c) s = (pyRange a b s).map (fun x => x + c) := by
  intro fuel
  induction fuel with
  | zero =>
    intro a b h
    have h1 : ¬ (0 < s ∧ a < b) := fun hc => by omega
    have h2 : ¬ (0 < s ∧ a + c < b + c) := fun hc => by omega
    rw [pyRange_neg h1, pyRange_neg h2]
    rfl
  | succ fuel ih =>
    intro a b h
    by_cases hc : 0 < s ∧ a < b
    · rw [pyRange_pos hc, pyRange_pos (⟨hc.1, by omega⟩ : 0 < s ∧ a + c < b + c),
        List.map_cons]
      refine congrArg₂ _ rfl ?_
      rw [show a + c + s = (a + s) + c from by omega]
      exact ih (a + s) b (by omega)
    · have h2 : ¬ (0 < s ∧ a + c < b + c) := fun hcc => hc ⟨hcc.1, by omega⟩
      rw [pyRange_neg hc, pyRange_neg h2]
      rfl

lemma chunk_list_nil {α : Type} (n : Nat) : chunk_list ([] : List α) n = [] := by
  have h : ¬ (0 < n ∧ 0 < ([] : List α).length) := by simp
  rw [chunk_list]
  rw [pyRange_neg h]
  rfl

lemma chunk_list_cons {α : Type} (lst : List α) (n : Nat) (hn : 0 < n)
    (hne : lst ≠ []) :
    chunk_list lst n = lst.take n :: chunk_list (lst.drop n) n := by
  have hlen : 0 < lst.length := List.length_pos.mpr hne
  rw [chunk_list, pyRange_pos ⟨hn, hlen⟩, List.map_cons, Nat.zero_add]
  refine congrArg₂ _ (by simp) ?_
  by_cases hle : lst.length ≤ n
  · have h1 : ¬ (0 < n ∧ n < lst.length) := fun hc => by omega
    have hd : lst.drop n = [] := List.drop_eq_nil_of_le hle
    rw [pyRange_neg h1, hd, chunk_list_nil]
    rfl
  · have hlt : n < lst.length := by omega
    have hshift : pyRange (0 + n) ((lst.length - n) + n) n =
        (pyRange 0 (lst.length - n) n).map (fun x => x + n) :=
      pyRange_shift n n (lst.length - n) 0 (lst.length - n) le_rfl
    rw [show (0 : Nat) + n = n from by omega,
      show lst.length - n + n = lst.length from by omega] at hshift
    rw [hshift, List.map_map, chunk_list]
    rw [List.length_drop]
    refine List.map_congr_left ?_
    intro i _
    show (lst.drop (i + n)).take n = ((lst.drop n).drop i).take n
    rw [List.drop_drop, Nat.add_comm]

lemma chunk_list_ne_nil {α : Type} (lst : List α) (n : Nat) (hn : 0 < n)
    (hne : lst ≠ []) : chunk_list lst n ≠ [] := by
  rw [chunk_list_cons lst n hn hne]
  exact List.cons_ne_nil _ _

/-- **C10.** For `chunk_size ≥ 1`, concatenating the chunks of
`chunk_list(lst, chunk_size)` in order yields `lst`, every chunk except
possibly the last has length exactly `chunk_size`, and the last chunk is
non-empty. -/
theorem chunk_list_spec {α : Type} (lst : List α) (n : Nat) (hn : 1 ≤ n) :
    (chunk_list lst n).flatten = lst ∧
    (∀ c ∈ (chunk_list lst n).dropLast, c.length = n) ∧
    (∀ c, (chunk_list lst n).getLast? = some c → c ≠ []) := by
  have main : ∀ fuel (l : List α), l.length ≤ fuel →
      (chunk_list l n).flatten = l ∧
      (∀ c ∈ (chunk_list l n).dropLast, c.length = n) ∧
      (∀ c, (chunk_list l n).getLast? = some c → c ≠ []) := by
    intro fuel
    induction fuel with
    | zero =>
      intro l hl
      have hnil : l = [] := List.length_eq_zero.mp (by omega)
      subst hnil
      rw [chunk_list_nil]
      exact ⟨rfl, fun c hc => absurd hc (List.not_mem_nil c),
        fun c hc => Option.noConfusion hc⟩
    | succ fuel ih =>
      intro l hl
      by_cases hne : l = []
      · subst hne
        rw [chunk_list_nil]
        exact ⟨rfl, fun c hc => absurd hc (List.not_mem_nil c),
          fun c hc => Option.noConfusion hc⟩
      · have hrec := ih (l.drop n) (by rw [List.length_drop]; omega)
        rw [chunk_list_cons l n (by omega) hne]
        refine ⟨?_, ?_, ?_⟩
        · rw [List.flatten_cons, hrec.1, List.take_append_drop]
        · intro c hc
          cases hrest : chunk_list (l.drop n) n with
          | nil =>
            rw [hrest] at hc
            simp at hc
          | cons c0 cs =>
            rw [hrest] at hc
            have hdne : l.drop n ≠ [] := by
              intro hdnil
              rw [hdnil, chunk_list_nil] at hrest
              exact List.noConfusion hrest
            have hlt : n < l.length := by
              by_contra hcon
              exact hdne (List.drop_eq_nil_of_le (by omega))
            rw [show (l.take n :: c0 :: cs).dropLast
                = l.take n :: (c0 :: cs).dropLast from rfl] at hc
            rcases List.mem_cons.mp hc with hc1 | hc2
            · subst hc1
              rw [List.length_take]
              omega
            · have hR := hrec.2.1
              rw [hrest] at hR
              exact hR c hc2
        · intro c hc
          cases hrest : chunk_list (l.drop n) n with
          | nil =>
            rw [hrest] at hc
            rw [show ([l.take n] : List (List α)).getLast? = some (l.take n)
                from rfl] at hc
            injection hc with hc1
            subst hc1
            intro htk
            have hlen0 : min n l.length = 0 := by
              have hx := congrArg List.length htk
              rwa [List.length_take, List.length_nil] at hx
            have hl0 : l.length = 0 := by omega
            exact hne (List.length_eq_zero.mp hl0)
          | cons c0 cs =>
            rw [hrest] at hc
            rw [List.getLast?_cons_cons] at hc
            have hR := hrec.2.2
            rw [hrest] at hR
            exact hR c hc
  exact main lst.length lst le_rfl

/-- Witness for C10: a seven-element list in chunks of 3. -/
theorem chunk_list_spec_witness :
    (chunk_list [10, 20, 30, 40, 50, 60, 70] 3).flatten = [10, 20, 30, 40, 50, 60, 70] ∧
    (∀ c ∈ (chunk_list [10, 20, 30, 40, 50, 60, 70] 3).dropLast, c.length = 3) ∧
    (∀ c, (chunk_list [10, 20, 30, 40, 50, 60, 70] 3).getLast? = some c → c ≠ []) :=
  chunk_list_spec [10, 20, 30, 40, 50, 60, 70] 3 (by omega)

end Plasma

